import Mathlib

/-!
# Verification of `vault_events.py` (gitrgoliveira/vault-eda-delivery)

Shallow embedding of the event-source plugin
`src/collections/ansible_collections/gitrgoliveira/vault_eda/plugins/event_source/vault_events.py`
and proofs about the spec's claims (C1–C10).

Conventions:
* Python `dict[str, str]` values are modelled as ordered association lists
  (`List (String × String)`), with `dictSet` mirroring `d[k] = v` and
  `dictUpdate` mirroring `d.update(other)`.
* Python floats used for the backoff bounds are modelled as rationals (the
  code only doubles and takes `min`, both exact on floats for these ranges).
* Python exceptions are modelled as an inductive `PyExc`; a `try`/`except`
  block becomes a `match`/`if` dispatch over `Except PyExc _` values, with
  the except clauses tried in source order.
* JSON values (the result of `json.loads`) are the inductive `Json`.
-/

namespace VaultEvents

/-! ## JSON values and Python exceptions -/

/-- A decoded JSON value, the result of a successful `json.loads(msg)`
(`vault_events.py:288`). A Python `dict` is `obj`, a `list` is `arr`. -/
inductive Json where
  | obj (fields : List (String × Json))
  | arr (elems : List Json)
  | str (s : String)
  | num (n : Int)
  | bool (b : Bool)
  | null
deriving Repr

/-- Is the decoded value a Python mapping (`dict`)?  Only mappings support
`.get`, which `vault_events.py:292` calls on the decode result. -/
def Json.isObj : Json → Bool
  | .obj _ => true
  | _ => false

/-- The Python exception classes that occur in `vault_events.py`:
the except clauses at lines 294, 306, 318 and 325, plus `AttributeError`,
which is raised by calling `.get` on a non-mapping and is caught by none of
them. -/
inductive PyExc where
  | cancelledError
  | connectionClosed
  | webSocketException
  | osError
  | sslError
  | jsonDecodeError (msg : String)
  | unicodeDecodeError (msg : String)
  | valueError (msg : String)
  | typeError (msg : String)
  | attributeError
deriving Repr, DecidableEq

/-- `str(e)` for the exceptions whose message the code embeds in the event
(`vault_events.py:313`). -/
def PyExc.excStr : PyExc → String
  | .jsonDecodeError m => m
  | .unicodeDecodeError m => m
  | .valueError m => m
  | .typeError m => m
  | _ => ""

/-- Membership test for `except json.JSONDecodeError` (`vault_events.py:294`). -/
def isJSONDecodeError : PyExc → Bool
  | .jsonDecodeError _ => true
  | _ => false

/-- Membership test for `except (UnicodeDecodeError, ValueError, TypeError)`
(`vault_events.py:306`).  `json.JSONDecodeError` is a subclass of
`ValueError`, so it is also a member of this class tuple (it never reaches
this clause because the clause at line 294 is tried first). -/
def isParseError : PyExc → Bool
  | .unicodeDecodeError _ => true
  | .valueError _ => true
  | .typeError _ => true
  | .jsonDecodeError _ => true
  | _ => false

/-- Membership test for `except asyncio.CancelledError` (`vault_events.py:318`). -/
def isCancelledError : PyExc → Bool
  | .cancelledError => true
  | _ => false

/-- Membership test for
`except (ConnectionClosed, WebSocketException, OSError, ssl.SSLError)`
(`vault_events.py:325`). -/
def isConnectionError : PyExc → Bool
  | .connectionClosed => true
  | .webSocketException => true
  | .osError => true
  | .sslError => true
  | _ => false

/-! ## Per-message handling in the Supervisor (`_stream_single_pattern`) -/

/-- The Decode-Failure Event Record built at `vault_events.py:301-305`
(and, with `str(e)` as the error marker, at line 313). -/
def decodeFailureRecord (msg errMarker pattern : String) : Json :=
  .obj [("raw", .str msg), ("error", .str errMarker), ("pattern", .str pattern)]

/-- The body of the inner `try` block (`vault_events.py:286-293`):
`event = json.loads(msg)` followed by
`log.debug(..., event.get("event_type", "unknown"))`.  The argument
`parsed` is the outcome of `json.loads(msg)`.  `.get` on a decode result
that is not a mapping raises `AttributeError`. -/
def tryBody (parsed : Except PyExc Json) : Except PyExc Json :=
  match parsed with
  | .error e => .error e
  | .ok event =>
    match event with
    | .obj fields => .ok (.obj fields)
    | _ => .error .attributeError

/-- One inbound text frame processed by the `async for` body
(`vault_events.py:285-313`): the inner `try` with its two except clauses,
tried in source order; an exception matching neither clause propagates. -/
def handleFrame (pattern msg : String) (parsed : Except PyExc Json) :
    Except PyExc Json :=
  match tryBody parsed with
  | .ok event => .ok event
  | .error e =>
    if isJSONDecodeError e then
      .ok (decodeFailureRecord msg "json_decode_failed" pattern)
    else if isParseError e then
      .ok (decodeFailureRecord msg e.excStr pattern)
    else
      .error e

/-- The `async for msg in ws` loop (`vault_events.py:285-316`): each frame is
handled and the resulting event is appended to the output queue
(`await queue.put(event)`); an exception escaping a frame's handling aborts
the loop.  A frame is the pair of the raw text and the outcome of
`json.loads` on it. -/
def streamFrames (pattern : String) :
    List (String × Except PyExc Json) → List Json → Except PyExc (List Json)
  | [], queue => .ok queue
  | (msg, parsed) :: rest, queue =>
    match handleFrame pattern msg parsed with
    | .ok event => streamFrames pattern rest (queue ++ [event])
    | .error e => .error e

/-- The outer `while True` dispatch on an exception escaping the connection
body (`vault_events.py:318-334`): `asyncio.CancelledError` is re-raised
(the task ends, propagating cancellation); the connection error tuple leads
to a backoff sleep and another iteration; anything else is caught by no
clause and crashes the Supervisor task. -/
inductive SupervisorOutcome where
  | reconnect
  | propagateCancel
  | crash (e : PyExc)
deriving Repr, DecidableEq

/-- Dispatch of an exception over the outer except clauses, in source order
(`vault_events.py:318` then `325`; no further clause exists). -/
def superviseExc (e : PyExc) : SupervisorOutcome :=
  if isCancelledError e then .propagateCancel
  else if isConnectionError e then .reconnect
  else .crash e

/-! ## Ordered dict model and the Entry Point's header assembly (`main`) -/

/-- `d[k] = v` on a Python `dict`: replace in place if the key exists,
append otherwise. -/
def dictSet : List (String × String) → String → String → List (String × String)
  | [], k, v => [(k, v)]
  | p :: rest, k, v =>
    if p.1 = k then (p.1, v) :: rest else p :: dictSet rest k v

/-- `d.get(k)` on a Python `dict` (keys are unique, so the first match is
the binding). -/
def dictGet : List (String × String) → String → Option String
  | [], _ => none
  | p :: rest, k => if p.1 = k then some p.2 else dictGet rest k

/-- `d.update(upd)`: apply the entries of `upd` in order, overwriting. -/
def dictUpdate (d upd : List (String × String)) : List (String × String) :=
  upd.foldl (fun acc p => dictSet acc p.1 p.2) d

/-- First-of-two option choice, used to state lookup laws. -/
def optOr (a b : Option String) : Option String :=
  match a with
  | some v => some v
  | none => b

/-- The value a sequence of updates leaves behind for key `k`
(the last entry of `upd` with that key, if any). -/
def lastVal : List (String × String) → String → Option String
  | [], _ => none
  | p :: rest, k =>
    optOr (lastVal rest k) (if p.1 = k then some p.2 else none)

/-- Header assembly in `main` (`vault_events.py:481-494`):
start from an empty dict, set `X-Vault-Token`, set `X-Vault-Namespace`
only if the namespace option is truthy, then `headers.update(custom)` if
the caller-supplied mapping is truthy. -/
def assembleHeaders (vault_token : String) (vaultNamespace : Option String)
    (custom_headers : List (String × String)) : List (String × String) :=
  let headers : List (String × String) := []
  let headers := dictSet headers "X-Vault-Token" vault_token
  let headers :=
    match vaultNamespace with
    | some ns => if ns ≠ "" then dictSet headers "X-Vault-Namespace" ns else headers
    | none => headers
  if custom_headers ≠ [] then dictUpdate headers custom_headers else headers

/-! ## Backoff model (`_stream_single_pattern`'s reconnect loop) -/

/-- Outcome of one `while True` iteration of the Supervisor as far as the
backoff variable is concerned: `success` is an iteration whose
`connect(...)` succeeded (line 282 runs `backoff = backoff_initial`);
`failure` is an iteration ending in the connection-error clause
(lines 333-334: `await asyncio.sleep(backoff)` then
`backoff = min(backoff * 2, backoff_max)`). -/
inductive ConnAttempt where
  | success
  | failure
deriving Repr, DecidableEq

/-- The sequence of sleep delays produced by a run of loop iterations,
threading the `backoff` variable exactly as `vault_events.py:266, 282,
333-334` do. -/
def supervisorDelays (backoff_initial backoff_max : ℚ) :
    ℚ → List ConnAttempt → List ℚ
  | _, [] => []
  | _, .success :: rest =>
    supervisorDelays backoff_initial backoff_max backoff_initial rest
  | b, .failure :: rest =>
    b :: supervisorDelays backoff_initial backoff_max (min (b * 2) backoff_max) rest

/-! ## Fan-out Coordinator and cancellation (`_stream_multiple_patterns`) -/

/-- The call made for one element of `event_paths` at
`vault_events.py:366-378`: `asyncio.create_task(_stream_single_pattern(...))`.
`queueId` identifies the queue object passed to the task (the same `queue`
is passed to every task). -/
structure SupervisorCall where
  queueId : Nat
  vault_addr : String
  pattern : String
  headers : List (String × String)
  ping_interval : Int
  verify_ssl : Bool
  backoff_initial : ℚ
  backoff_max : ℚ
  filter_expression : Option String
deriving Repr

/-- The task-spawning loop of `_stream_multiple_patterns`
(`vault_events.py:362-379`): one `asyncio.create_task` per element of
`event_paths`, in order, all sharing the one `queue`. -/
def spawnSupervisors (queueId : Nat) (vault_addr : String)
    (event_paths : List String) (headers : List (String × String))
    (ping_interval : Int) (verify_ssl : Bool)
    (backoff_initial backoff_max : ℚ) (filter_expression : Option String) :
    List SupervisorCall :=
  event_paths.map (fun pattern =>
    { queueId := queueId, vault_addr := vault_addr, pattern := pattern,
      headers := headers, ping_interval := ping_interval,
      verify_ssl := verify_ssl, backoff_initial := backoff_initial,
      backoff_max := backoff_max, filter_expression := filter_expression })

/-- A Supervisor task as the Coordinator's shutdown path sees it: its topic
pattern and whether the task has reached a finished state. -/
structure SupTask where
  pattern : String
  done : Bool
deriving Repr

/-- Delivery of `CancelledError` to one Supervisor task (`task.cancel()`,
`vault_events.py:388`): the exception is raised at the task's current
suspension point and dispatched over the Supervisor's outer except clauses
(`superviseExc`).  Because the `except asyncio.CancelledError` clause
re-raises (`vault_events.py:318-324`), the task finishes; had the
Supervisor swallowed the cancellation and looped again (`.reconnect`), the
task would stay running. -/
def deliverCancel (t : SupTask) : SupTask :=
  if t.done then t
  else
    match superviseExc .cancelledError with
    | .propagateCancel => { t with done := true }
    | .crash _ => { t with done := true }
    | .reconnect => t

/-- The Coordinator's `except asyncio.CancelledError` handler
(`vault_events.py:384-391`): cancel every task, then
`await asyncio.gather(*tasks, return_exceptions=True)` — which returns only
once every task is done — and only then re-raise.  The returned list is the
cohort as that final `gather` leaves it. -/
def coordinatorOnCancel (tasks : List SupTask) : List SupTask :=
  tasks.map deliverCancel

/-! ## Entry Point (`main`) -/

/-- The configuration mapping `args` consumed by `main`
(`vault_events.py:426-501`), with each recognized option modelled at its
documented type; `none` means the key is absent.  The Python option named
`namespace` is called `vaultNamespace` here (`namespace` is a Lean
keyword). -/
structure Args where
  vault_addr : Option String := none
  vault_token : Option String := none
  event_paths : Option (String ⊕ List String) := none
  verify_ssl : Option Bool := none
  ping_interval : Option Int := none
  backoff_initial : Option ℚ := none
  backoff_max : Option ℚ := none
  vaultNamespace : Option String := none
  headers : Option (List (String × String)) := none
  filter_expression : Option String := none

/-- The argument record of the `await _stream_multiple_patterns(...)` call
at `vault_events.py:513-523`. -/
structure CoordinatorArgs where
  vault_addr : String
  event_paths : List String
  headers : List (String × String)
  ping_interval : Int
  verify_ssl : Bool
  backoff_initial : ℚ
  backoff_max : ℚ
  filter_expression : Option String

/-- The synchronous part of `main` (`vault_events.py:426-523`): validate
`vault_addr` and `vault_token` (`if not vault_addr: raise ValueError(...)`,
a Python truthiness test, so an empty string fails too), normalize
`event_paths`, assemble the headers, compute the numeric/boolean defaults,
and produce the delegation to `_stream_multiple_patterns`.  `.error` is the
`ValueError` raised before any connection attempt. -/
def mainSetup (args : Args) : Except String CoordinatorArgs :=
  match args.vault_addr with
  | none => .error "vault_addr parameter is required"
  | some addr =>
    if addr = "" then .error "vault_addr parameter is required"
    else
      match args.vault_token with
      | none => .error "vault_token parameter is required"
      | some tok =>
        if tok = "" then .error "vault_token parameter is required"
        else
          let event_paths :=
            match args.event_paths with
            | none => ["kv-v2/data-*"]
            | some (.inl s) => [s]
            | some (.inr l) => l
          .ok {
            vault_addr := addr,
            event_paths := event_paths,
            headers := assembleHeaders tok args.vaultNamespace (args.headers.getD []),
            ping_interval := args.ping_interval.getD 20,
            verify_ssl := args.verify_ssl.getD true,
            backoff_initial := args.backoff_initial.getD 1,
            backoff_max := args.backoff_max.getD 30,
            filter_expression := args.filter_expression }

/-! ## URL Builder (`_build_event_url`) -/

/-- Python `s.startswith(pat)` on character lists (`pat` first). -/
def startsWithL : List Char → List Char → Bool
  | [], _ => true
  | _ :: _, [] => false
  | p :: ps, c :: cs => p == c && startsWithL ps cs

/-- Fuel-indexed core of Python `str.replace`: replace every non-overlapping
occurrence of `pat` (nonempty) by `rep`, scanning left to right.  Each step
consumes at least one character, so `s.length` fuel always suffices. -/
def replaceAllAux (pat rep : List Char) : Nat → List Char → List Char
  | 0, s => s
  | _ + 1, [] => []
  | fuel + 1, c :: rest =>
    if startsWithL pat (c :: rest) then
      rep ++ replaceAllAux pat rep fuel (List.drop (pat.length - 1) rest)
    else
      c :: replaceAllAux pat rep fuel rest

/-- Python `s.replace(pat, rep)` for a nonempty `pat`: every occurrence is
replaced, not only the first. -/
def replaceAll (s pat rep : List Char) : List Char :=
  replaceAllAux pat rep s.length s

def httpsScheme : List Char := ['h', 't', 't', 'p', 's', ':', '/', '/']

def httpScheme : List Char := ['h', 't', 't', 'p', ':', '/', '/']

def wssScheme : List Char := ['w', 's', 's', ':', '/', '/']

def wsScheme : List Char := ['w', 's', ':', '/', '/']

/-- The scheme translation of `_build_event_url` (`vault_events.py:406-410`):
`vault_addr.replace("https://", "wss://")` when the address starts with
`https://`, else `vault_addr.replace("http://", "ws://")`. -/
def wsTransform (vault_addr : List Char) : List Char :=
  if startsWithL httpsScheme vault_addr then
    replaceAll vault_addr httpsScheme wssScheme
  else
    replaceAll vault_addr httpScheme wsScheme

/-! ### `urllib.parse.quote` and percent-decoding

`_build_event_url` percent-encodes the filter expression with
`urllib.parse.quote(filter_expression)` (`vault_events.py:417`).  `quote`
UTF-8-encodes the string and then maps each byte: the always-safe bytes
(ASCII letters, digits, `_ . - ~`) and the default `safe='/'` pass through
as themselves, every other byte becomes `%XX` with uppercase hex digits.
Percent-decoding (`urllib.parse.unquote`) scans the text, turns each
maximal run of `%XX` escapes into a byte string decoded as UTF-8, and
passes every other character through. -/

/-- UTF-8 encoding of one code point (as `str.encode("utf-8")` produces). -/
def utf8Encode (c : Nat) : List Nat :=
  if c < 128 then [c]
  else if c < 2048 then [192 + c / 64, 128 + c % 64]
  else if c < 65536 then [224 + c / 4096, 128 + c / 64 % 64, 128 + c % 64]
  else [240 + c / 262144, 128 + c / 4096 % 64, 128 + c / 64 % 64, 128 + c % 64]

/-- UTF-8 encoding of a code-point sequence. -/
def utf8EncodeAll : List Nat → List Nat
  | [] => []
  | c :: cs => utf8Encode c ++ utf8EncodeAll cs

/-- UTF-8 decoding of one code point: the first byte `b`, the remaining
bytes, and on success the code point with the bytes left over.  `none` on a
malformed sequence. -/
def utf8DecodeOne (b : Nat) (rest : List Nat) : Option (Nat × List Nat) :=
  if b < 128 then some (b, rest)
  else if b < 192 then none
  else if b < 224 then
    match rest with
    | b1 :: rest1 =>
      if 128 ≤ b1 ∧ b1 < 192 then
        some ((b - 192) * 64 + (b1 - 128), rest1)
      else none
    | [] => none
  else if b < 240 then
    match rest with
    | b1 :: b2 :: rest2 =>
      if (128 ≤ b1 ∧ b1 < 192) ∧ (128 ≤ b2 ∧ b2 < 192) then
        some ((b - 224) * 4096 + (b1 - 128) * 64 + (b2 - 128), rest2)
      else none
    | _ => none
  else if b < 248 then
    match rest with
    | b1 :: b2 :: b3 :: rest3 =>
      if (128 ≤ b1 ∧ b1 < 192) ∧ (128 ≤ b2 ∧ b2 < 192) ∧ (128 ≤ b3 ∧ b3 < 192) then
        some ((b - 240) * 262144 + (b1 - 128) * 4096 + (b2 - 128) * 64 + (b3 - 128),
          rest3)
      else none
    | _ => none
  else none

/-- Fuel-indexed UTF-8 decoding of a byte string; each step consumes at
least one byte, so the byte count is always enough fuel. -/
def utf8DecodeAux : Nat → List Nat → Option (List Nat)
  | _, [] => some []
  | 0, _ :: _ => none
  | fuel + 1, b :: rest =>
    match utf8DecodeOne b rest with
    | some (cp, rest2) => (utf8DecodeAux fuel rest2).map (cp :: ·)
    | none => none

/-- UTF-8 decoding of a byte string to code points; `none` on a malformed
sequence. -/
def utf8DecodeList (bs : List Nat) : Option (List Nat) :=
  utf8DecodeAux bs.length bs

/-- The bytes `urllib.parse.quote` leaves unescaped with the default
`safe='/'`: ASCII alphanumerics, `_ . - ~` and `/`. -/
def isSafeByte (b : Nat) : Bool :=
  (48 ≤ b && b ≤ 57) || (65 ≤ b && b ≤ 90) || (97 ≤ b && b ≤ 122) ||
  b == 95 || b == 46 || b == 45 || b == 126 || b == 47

/-- Uppercase hex digit of a nibble, as `quote` emits. -/
def hexDigitChar (n : Nat) : Char :=
  if n < 10 then Char.ofNat (48 + n) else Char.ofNat (55 + n)

/-- One byte as `quote` renders it: itself when safe, `%XX` otherwise. -/
def percentEncodeByte (b : Nat) : List Char :=
  if isSafeByte b then [Char.ofNat b]
  else ['%', hexDigitChar (b / 16), hexDigitChar (b % 16)]

/-- `quote`'s per-byte pass over a byte string. -/
def percentEncode : List Nat → List Char
  | [] => []
  | b :: bs => percentEncodeByte b ++ percentEncode bs

/-- `urllib.parse.quote(s)` with the default `safe='/'`. -/
def pyQuote (s : List Char) : List Char :=
  percentEncode (utf8EncodeAll (s.map Char.toNat))

/-- `%XX` escapes only, for stating facts about all-unsafe runs. -/
def escapeList : List Nat → List Char
  | [] => []
  | b :: bs => '%' :: hexDigitChar (b / 16) :: hexDigitChar (b % 16) :: escapeList bs

def isHexDigitChar (c : Char) : Bool :=
  (48 ≤ c.toNat && c.toNat ≤ 57) || (65 ≤ c.toNat && c.toNat ≤ 70) ||
  (97 ≤ c.toNat && c.toNat ≤ 102)

def hexVal (c : Char) : Nat :=
  if c.toNat ≤ 57 then c.toNat - 48
  else if c.toNat ≤ 70 then c.toNat - 55
  else c.toNat - 87

/-- The maximal leading run of `%XX` escapes: the bytes it denotes, and the
remainder of the text. -/
def collectEscapes : List Char → List Nat × List Char
  | a :: h :: l :: rest =>
    if a = '%' ∧ isHexDigitChar h ∧ isHexDigitChar l then
      let r := collectEscapes rest
      ((hexVal h * 16 + hexVal l) :: r.1, r.2)
    else ([], a :: h :: l :: rest)
  | s => ([], s)

/-- One step of `urllib.parse.unquote` at text `c :: rest`: a maximal
escape run is decoded as UTF-8 and yields its code points; any other
character (a lone `%` included) passes through as its own code point.
`none` on a malformed UTF-8 escape run (where Python would substitute
U+FFFD). -/
def pyUnquoteStep (c : Char) (rest : List Char) : Option (List Nat × List Char) :=
  if c = '%' then
    match collectEscapes (c :: rest) with
    | ([], _) => some ([c.toNat], rest)
    | (b :: bs, rem) =>
      match utf8DecodeList (b :: bs) with
      | some cps => some (cps, rem)
      | none => none
  else some ([c.toNat], rest)

/-- Fuel-indexed core of `urllib.parse.unquote`.  Each step consumes at
least one character, so `s.length` fuel always suffices. -/
def pyUnquoteAux : Nat → List Char → Option (List Nat)
  | _, [] => some []
  | 0, _ :: _ => none
  | fuel + 1, c :: rest =>
    match pyUnquoteStep c rest with
    | some (cps, rem) => (pyUnquoteAux fuel rem).map (fun l => cps ++ l)
    | none => none

/-- `urllib.parse.unquote`, returning the decoded code points. -/
def pyUnquote (s : List Char) : Option (List Nat) :=
  pyUnquoteAux s.length s

/-- The `event_url` string built at `vault_events.py:413`: the
scheme-translated address, the fixed subscription path, the pattern, and
the literal `?json=true` query. -/
def build_event_base (vault_addr event_pattern : String) : List Char :=
  wsTransform vault_addr.data ++ "/v1/sys/events/subscribe/".data
    ++ event_pattern.data ++ "?json=true".data

/-- `_build_event_url` (`vault_events.py:394-423`): the base URL, plus —
only when the filter expression is truthy — `&filter=` followed by the
percent-encoded expression (`vault_events.py:416-418`). -/
def build_event_url (vault_addr event_pattern : String)
    (filter_expression : Option String) : String :=
  match filter_expression with
  | some f =>
    if f ≠ "" then
      String.mk (build_event_base vault_addr event_pattern
        ++ "&filter=".data ++ pyQuote f.data)
    else String.mk (build_event_base vault_addr event_pattern)
  | none => String.mk (build_event_base vault_addr event_pattern)


/-! ## Lemmas about the dict model, backoff and cancellation -/

@[simp] theorem optOr_some (v : String) (b : Option String) :
    optOr (some v) b = some v := rfl

@[simp] theorem optOr_none (b : Option String) : optOr none b = b := rfl

theorem dictGet_dictSet (d : List (String × String)) (k v k' : String) :
    dictGet (dictSet d k v) k' = if k' = k then some v else dictGet d k' := by
  induction d with
  | nil =>
    by_cases h : k' = k
    · simp [dictSet, dictGet, h]
    · have h' : ¬ (k = k') := fun hh => h hh.symm
      simp [dictSet, dictGet, h, h']
  | cons p rest ih =>
    by_cases hpk : p.1 = k
    · by_cases h : k' = k
      · subst h
        simp [dictSet, dictGet, hpk]
      · have h1 : ¬ (k = k') := fun hh => h hh.symm
        have h2 : ¬ (p.1 = k') := fun hh => h (hh.symm.trans hpk)
        simp [dictSet, dictGet, hpk, h, h1, h2]
    · by_cases h : k' = k
      · subst h
        simp [dictSet, dictGet, hpk, ih]
      · by_cases hpk' : p.1 = k'
        · simp [dictSet, dictGet, hpk, h, hpk']
        · simp [dictSet, dictGet, hpk, h, hpk', ih]

theorem dictGet_dictUpdate (d upd : List (String × String)) (k : String) :
    dictGet (dictUpdate d upd) k = optOr (lastVal upd k) (dictGet d k) := by
  induction upd generalizing d with
  | nil => simp [dictUpdate, lastVal]
  | cons p rest ih =>
    have step : dictUpdate d (p :: rest) = dictUpdate (dictSet d p.1 p.2) rest := rfl
    have hl : lastVal (p :: rest) k =
        optOr (lastVal rest k) (if p.1 = k then some p.2 else none) := rfl
    rw [step, ih, dictGet_dictSet, hl]
    cases hr : lastVal rest k with
    | some v => rfl
    | none =>
      rw [optOr_none, optOr_none]
      by_cases hk : k = p.1
      · have h1 : p.1 = k := hk.symm
        rw [if_pos hk, if_pos h1, optOr_some]
      · have h1 : ¬ (p.1 = k) := fun hh => hk hh.symm
        rw [if_neg hk, if_neg h1, optOr_none]

theorem min_double_min (x m : ℚ) (hx : 0 ≤ x) (hm : 0 ≤ m) :
    min (min x m * 2) m = min (x * 2) m := by
  rcases le_total x m with h | h
  · rw [min_eq_left h]
  · rw [min_eq_right h]
    have h1 : m ≤ m * 2 := by linarith
    have h2 : m ≤ x * 2 := by linarith
    rw [min_eq_right h1, min_eq_right h2]

theorem supervisorDelays_replicate (bi bm : ℚ) (h0 : 0 < bi) (h1 : bi ≤ bm) :
    ∀ (n k : ℕ),
      supervisorDelays bi bm (min (bi * 2 ^ k) bm) (List.replicate n .failure)
        = (List.range n).map (fun j => min (bi * 2 ^ (k + j)) bm) := by
  intro n
  induction n with
  | zero => intro k; simp [supervisorDelays]
  | succ n ih =>
    intro k
    rw [List.replicate_succ]
    have e0 : supervisorDelays bi bm (min (bi * 2 ^ k) bm)
        (.failure :: List.replicate n .failure)
        = min (bi * 2 ^ k) bm ::
          supervisorDelays bi bm (min (min (bi * 2 ^ k) bm * 2) bm)
            (List.replicate n .failure) := rfl
    have e1 : min (min (bi * 2 ^ k) bm * 2) bm = min (bi * 2 ^ (k + 1)) bm := by
      rw [min_double_min _ _ (by positivity) (le_trans h0.le h1), pow_succ]
      ring_nf
    rw [e0, e1, ih (k + 1), List.range_succ_eq_map, List.map_cons, List.map_map]
    have hcomp : ((fun j => min (bi * 2 ^ (k + j)) bm) ∘ Nat.succ)
        = fun j => min (bi * 2 ^ (k + 1 + j)) bm := by
      funext j
      have hj : k + Nat.succ j = k + 1 + j := by omega
      simp [Function.comp, hj]
    rw [hcomp]
    simp

theorem deliverCancel_done (t : SupTask) : (deliverCancel t).done = true := by
  by_cases h : t.done
  · simp [deliverCancel, h]
  · simp [deliverCancel, h, superviseExc, isCancelledError]

/-! ## Lemmas about the URL builder -/

theorem startsWithL_append (p t : List Char) : startsWithL p (p ++ t) = true := by
  induction p with
  | nil => rfl
  | cons c cs ih => simp [startsWithL, ih]

theorem startsWithL_iff (p s : List Char) :
    startsWithL p s = true ↔ ∃ t, s = p ++ t := by
  induction p generalizing s with
  | nil => simp [startsWithL]
  | cons c cs ih =>
    cases s with
    | nil => simp [startsWithL]
    | cons d ds =>
      simp only [startsWithL, Bool.and_eq_true, beq_iff_eq, ih, List.cons_append,
        List.cons.injEq]
      constructor
      · rintro ⟨hcd, t, rfl⟩
        exact ⟨t, hcd.symm, rfl⟩
      · rintro ⟨t, hdc, rfl⟩
        exact ⟨hdc.symm, t, rfl⟩

theorem replaceAll_head (pat rep s : List Char) (hne : pat ≠ [])
    (hs : startsWithL pat s = true) :
    ∃ t, replaceAll s pat rep = rep ++ t := by
  obtain ⟨t0, rfl⟩ := (startsWithL_iff pat s).1 hs
  cases pat with
  | nil => exact absurd rfl hne
  | cons q qs =>
    refine ⟨replaceAllAux (q :: qs) rep (qs ++ t0).length
      (List.drop ((q :: qs).length - 1) (qs ++ t0)), ?_⟩
    have hsw : startsWithL (q :: qs) (q :: (qs ++ t0)) = true :=
      startsWithL_append (q :: qs) t0
    simp [replaceAll, replaceAllAux, hsw]

theorem http_not_https (l : List Char) (h : startsWithL httpScheme l = true) :
    startsWithL httpsScheme l = false := by
  obtain ⟨t, rfl⟩ := (startsWithL_iff httpScheme l).1 h
  rfl

theorem build_event_base_eq (vault_addr event_pattern : String) :
    ∃ t, build_event_base vault_addr event_pattern
      = wsTransform vault_addr.data ++ t := by
  refine ⟨"/v1/sys/events/subscribe/".data
    ++ (event_pattern.data ++ "?json=true".data), ?_⟩
  simp [build_event_base, List.append_assoc]

/-- The built URL always extends the scheme-translated address. -/
theorem build_event_url_data (vault_addr event_pattern : String)
    (filter_expression : Option String) :
    ∃ t, (build_event_url vault_addr event_pattern filter_expression).data
      = wsTransform vault_addr.data ++ t := by
  obtain ⟨t0, h0⟩ := build_event_base_eq vault_addr event_pattern
  cases filter_expression with
  | none => exact ⟨t0, h0⟩
  | some f =>
    by_cases hf : f = ""
    · refine ⟨t0, ?_⟩
      show (if f ≠ "" then
          String.mk (build_event_base vault_addr event_pattern
            ++ "&filter=".data ++ pyQuote f.data)
        else String.mk (build_event_base vault_addr event_pattern)).data
        = wsTransform vault_addr.data ++ t0
      rw [if_neg (by simpa using hf)]
      exact h0
    · refine ⟨t0 ++ ("&filter=".data ++ pyQuote f.data), ?_⟩
      show (if f ≠ "" then
          String.mk (build_event_base vault_addr event_pattern
            ++ "&filter=".data ++ pyQuote f.data)
        else String.mk (build_event_base vault_addr event_pattern)).data
        = wsTransform vault_addr.data ++ (t0 ++ ("&filter=".data ++ pyQuote f.data))
      rw [if_pos hf]
      show build_event_base vault_addr event_pattern
          ++ "&filter=".data ++ pyQuote f.data = _
      rw [h0]
      simp [List.append_assoc]

/-! ## UTF-8 and percent-encoding round trip -/

theorem utf8DecodeOne_encode (c : Nat) (hc : c < 1114112) (t : List Nat) :
    ∃ b rest, utf8Encode c ++ t = b :: rest ∧ utf8DecodeOne b rest = some (c, t) := by
  by_cases h1 : c < 128
  · refine ⟨c, t, by simp [utf8Encode, h1], ?_⟩
    simp [utf8DecodeOne, h1]
  · by_cases h2 : c < 2048
    · refine ⟨192 + c / 64, (128 + c % 64) :: t, by simp [utf8Encode, h1, h2], ?_⟩
      have h0 : ¬ (192 + c / 64 < 128) := by omega
      have hA : ¬ (192 + c / 64 < 192) := by omega
      have hB : 192 + c / 64 < 224 := by omega
      have hcont : 128 ≤ 128 + c % 64 ∧ 128 + c % 64 < 192 := by omega
      have hv : (192 + c / 64 - 192) * 64 + (128 + c % 64 - 128) = c := by omega
      simp [utf8DecodeOne, h0, hA, hB, hcont, hv]
      omega
    · by_cases h3 : c < 65536
      · refine ⟨224 + c / 4096, (128 + c / 64 % 64) :: (128 + c % 64) :: t,
          by simp [utf8Encode, h1, h2, h3], ?_⟩
        have h0 : ¬ (224 + c / 4096 < 128) := by omega
        have hA : ¬ (224 + c / 4096 < 192) := by omega
        have hB : ¬ (224 + c / 4096 < 224) := by omega
        have hC : 224 + c / 4096 < 240 := by omega
        have hcont : (128 ≤ 128 + c / 64 % 64 ∧ 128 + c / 64 % 64 < 192) ∧
            (128 ≤ 128 + c % 64 ∧ 128 + c % 64 < 192) := by omega
        have hv : (224 + c / 4096 - 224) * 4096 + (128 + c / 64 % 64 - 128) * 64
            + (128 + c % 64 - 128) = c := by omega
        simp [utf8DecodeOne, h0, hA, hB, hC, hcont, hv]
        omega
      · refine ⟨240 + c / 262144,
          (128 + c / 4096 % 64) :: (128 + c / 64 % 64) :: (128 + c % 64) :: t,
          by simp [utf8Encode, h1, h2, h3], ?_⟩
        have h0 : ¬ (240 + c / 262144 < 128) := by omega
        have hA : ¬ (240 + c / 262144 < 192) := by omega
        have hB : ¬ (240 + c / 262144 < 224) := by omega
        have hC : ¬ (240 + c / 262144 < 240) := by omega
        have hD : 240 + c / 262144 < 248 := by omega
        have hcont : (128 ≤ 128 + c / 4096 % 64 ∧ 128 + c / 4096 % 64 < 192) ∧
            (128 ≤ 128 + c / 64 % 64 ∧ 128 + c / 64 % 64 < 192) ∧
            (128 ≤ 128 + c % 64 ∧ 128 + c % 64 < 192) := by omega
        have hv : (240 + c / 262144 - 240) * 262144 + (128 + c / 4096 % 64 - 128) * 4096
            + (128 + c / 64 % 64 - 128) * 64 + (128 + c % 64 - 128) = c := by omega
        simp [utf8DecodeOne, h0, hA, hB, hC, hD, hcont, hv]
        omega

theorem utf8Encode_length_pos (c : Nat) : 0 < (utf8Encode c).length := by
  unfold utf8Encode
  repeat' split
  all_goals simp

theorem utf8EncodeAll_length_ge (u : List Nat) :
    u.length ≤ (utf8EncodeAll u).length := by
  induction u with
  | nil => simp [utf8EncodeAll]
  | cons c cs ih =>
    have := utf8Encode_length_pos c
    simp only [utf8EncodeAll, List.length_append, List.length_cons]
    omega

theorem utf8DecodeAux_encodeAll (u : List Nat) (hu : ∀ c ∈ u, c < 1114112) :
    ∀ fuel, u.length ≤ fuel → utf8DecodeAux fuel (utf8EncodeAll u) = some u := by
  induction u with
  | nil =>
    intro fuel _
    show utf8DecodeAux fuel [] = some []
    cases fuel <;> rfl
  | cons c cs ih =>
    intro fuel hf
    obtain ⟨f, rfl⟩ : ∃ k, fuel = k + 1 := ⟨fuel - 1, by simp at hf; omega⟩
    obtain ⟨b, rest, he, hd⟩ := utf8DecodeOne_encode c (hu c (by simp)) (utf8EncodeAll cs)
    have : utf8EncodeAll (c :: cs) = b :: rest := he
    rw [this]
    show (match utf8DecodeOne b rest with
      | some (cp, rest2) => (utf8DecodeAux f rest2).map (cp :: ·)
      | none => none) = some (c :: cs)
    rw [hd]
    show (utf8DecodeAux f (utf8EncodeAll cs)).map (c :: ·) = some (c :: cs)
    have hcs : cs.length ≤ f := by simp at hf; omega
    rw [ih (fun x hx => hu x (by simp [hx])) f hcs]
    rfl

theorem utf8DecodeList_encodeAll (u : List Nat) (hu : ∀ c ∈ u, c < 1114112) :
    utf8DecodeList (utf8EncodeAll u) = some u := by
  unfold utf8DecodeList
  exact utf8DecodeAux_encodeAll u hu _ (utf8EncodeAll_length_ge u)

/-! ## Percent-encoding lemmas and the round trip -/

theorem isSafeByte_lt (b : Nat) (h : isSafeByte b = true) : b < 128 := by
  simp [isSafeByte] at h
  omega

theorem char_toNat_lt (c : Char) : c.toNat < 1114112 := by
  have h := c.valid
  show c.val.toNat < 1114112
  rcases h with h | h <;> omega

theorem utf8Encode_bytes_lt256 (c : Nat) (hc : c < 1114112) :
    ∀ b ∈ utf8Encode c, b < 256 := by
  intro b hb
  unfold utf8Encode at hb
  by_cases h1 : c < 128
  · simp [h1] at hb; omega
  · by_cases h2 : c < 2048
    · simp [h1, h2] at hb; omega
    · by_cases h3 : c < 65536
      · simp [h1, h2, h3] at hb; omega
      · simp [h1, h2, h3] at hb; omega

theorem utf8Encode_bytes_unsafe (c : Nat) (hc : isSafeByte c = false) :
    ∀ b ∈ utf8Encode c, isSafeByte b = false := by
  intro b hb
  by_cases h1 : c < 128
  · have : b = c := by unfold utf8Encode at hb; simp [h1] at hb; omega
    rw [this]; exact hc
  · have hb128 : 128 ≤ b := by
      unfold utf8Encode at hb
      by_cases h2 : c < 2048
      · simp [h1, h2] at hb; omega
      · by_cases h3 : c < 65536
        · simp [h1, h2, h3] at hb; omega
        · simp [h1, h2, h3] at hb; omega
    cases hsb : isSafeByte b with
    | false => rfl
    | true =>
      have := isSafeByte_lt b hsb
      omega

theorem percentEncode_append (a b : List Nat) :
    percentEncode (a ++ b) = percentEncode a ++ percentEncode b := by
  induction a with
  | nil => rfl
  | cons x xs ih => simp [percentEncode, ih]

theorem escapeList_append (a b : List Nat) :
    escapeList (a ++ b) = escapeList a ++ escapeList b := by
  induction a with
  | nil => rfl
  | cons x xs ih => simp [escapeList, ih]

theorem percentEncode_allUnsafe (B : List Nat) (h : ∀ b ∈ B, isSafeByte b = false) :
    percentEncode B = escapeList B := by
  induction B with
  | nil => rfl
  | cons b bs ih =>
    have hb := h b (by simp)
    simp [percentEncode, escapeList, percentEncodeByte, hb,
      ih (fun x hx => h x (by simp [hx]))]

theorem hexDigitChar_isHex (n : Nat) (h : n < 16) :
    isHexDigitChar (hexDigitChar n) = true := by
  interval_cases n <;> decide

theorem hexVal_hexDigitChar (n : Nat) (h : n < 16) :
    hexVal (hexDigitChar n) = n := by
  interval_cases n <;> decide

theorem utf8EncodeAll_append (a b : List Nat) :
    utf8EncodeAll (a ++ b) = utf8EncodeAll a ++ utf8EncodeAll b := by
  induction a with
  | nil => rfl
  | cons x xs ih => simp [utf8EncodeAll, ih]

theorem pyQuote_append (a b : List Char) :
    pyQuote (a ++ b) = pyQuote a ++ pyQuote b := by
  simp [pyQuote, utf8EncodeAll_append, percentEncode_append]

theorem pyQuote_cons_safe (c : Char) (cs : List Char) (h : isSafeByte c.toNat = true) :
    pyQuote (c :: cs) = c :: pyQuote cs := by
  have hlt : c.toNat < 128 := isSafeByte_lt _ h
  have he : utf8Encode c.toNat = [c.toNat] := by simp [utf8Encode, hlt]
  show percentEncode (utf8EncodeAll (c.toNat :: cs.map Char.toNat)) = _
  show percentEncode (utf8Encode c.toNat ++ utf8EncodeAll (cs.map Char.toNat)) = _
  rw [he, percentEncode_append]
  simp [percentEncode, percentEncodeByte, h, Char.ofNat_toNat]
  rfl

theorem collectEscapes_head_ne (d : Char) (hd : d ≠ '%') (t : List Char) :
    collectEscapes (d :: t) = ([], d :: t) := by
  cases t with
  | nil => rfl
  | cons h' t' =>
    cases t' with
    | nil => rfl
    | cons l' t'' =>
      simp only [collectEscapes]
      rw [if_neg]
      rintro ⟨h1, -⟩
      exact hd h1

theorem collectEscapes_escapeList (B : List Nat) (hB : ∀ b ∈ B, b < 256)
    (t : List Char) (ht : collectEscapes t = ([], t)) :
    collectEscapes (escapeList B ++ t) = (B, t) := by
  induction B with
  | nil => simpa using ht
  | cons b bs ih =>
    have hb : b < 256 := hB b (by simp)
    have h16a : b / 16 < 16 := by omega
    have h16b : b % 16 < 16 := by omega
    have hih := ih (fun x hx => hB x (by simp [hx]))
    show collectEscapes
        ('%' :: hexDigitChar (b / 16) :: hexDigitChar (b % 16) :: (escapeList bs ++ t))
      = (b :: bs, t)
    simp only [collectEscapes]
    simp [hexDigitChar_isHex _ h16a, hexDigitChar_isHex _ h16b,
      hexVal_hexDigitChar _ h16a, hexVal_hexDigitChar _ h16b, hih]
    all_goals omega

theorem collectEscapes_pyQuote (v : List Char)
    (hv : ∀ d t', v = d :: t' → isSafeByte d.toNat = true) :
    collectEscapes (pyQuote v) = ([], pyQuote v) := by
  cases v with
  | nil => rfl
  | cons d t' =>
    have hd := hv d t' rfl
    rw [pyQuote_cons_safe d t' hd]
    apply collectEscapes_head_ne
    intro h
    rw [h] at hd
    exact absurd hd (by decide)

theorem utf8EncodeAll_mem (l : List Nat) (b : Nat) (hb : b ∈ utf8EncodeAll l) :
    ∃ x ∈ l, b ∈ utf8Encode x := by
  induction l with
  | nil => simp [utf8EncodeAll] at hb
  | cons x xs ih =>
    simp only [utf8EncodeAll, List.mem_append] at hb
    rcases hb with hb | hb
    · exact ⟨x, by simp, hb⟩
    · obtain ⟨y, hy, hby⟩ := ih hb
      exact ⟨y, by simp [hy], hby⟩

theorem dropWhile_head_false (p : Char → Bool) :
    ∀ (l : List Char) d t', l.dropWhile p = d :: t' → p d = false := by
  intro l
  induction l with
  | nil => intro d t' h; simp [List.dropWhile] at h
  | cons x xs ih =>
    intro d t' h
    cases hx : p x with
    | true =>
      rw [List.dropWhile_cons_of_pos hx] at h
      exact ih d t' h
    | false =>
      rw [List.dropWhile_cons_of_neg (by simp [hx])] at h
      injection h with h1 h2
      rw [← h1]
      exact hx

theorem pyUnquoteAux_pyQuote :
    ∀ (n : Nat) (s : List Char), s.length ≤ n → ∀ fuel, s.length ≤ fuel →
      pyUnquoteAux fuel (pyQuote s) = some (s.map Char.toNat) := by
  intro n
  induction n with
  | zero =>
    intro s hs fuel _
    have hnil : s = [] := List.length_eq_zero.mp (Nat.le_zero.mp hs)
    subst hnil
    show pyUnquoteAux fuel [] = some []
    cases fuel <;> rfl
  | succ n ih =>
    intro s hs fuel hf
    rcases s with _ | ⟨c, cs⟩
    · show pyUnquoteAux fuel [] = some []
      cases fuel <;> rfl
    · obtain ⟨f, rfl⟩ : ∃ k, fuel = k + 1 := ⟨fuel - 1, by simp at hf; omega⟩
      by_cases hsafe : isSafeByte c.toNat = true
      · rw [pyQuote_cons_safe c cs hsafe]
        have hcne : ¬ (c = '%') := fun h => by
          rw [h] at hsafe; exact absurd hsafe (by decide)
        show (match pyUnquoteStep c (pyQuote cs) with
          | some (cps, rem) => (pyUnquoteAux f rem).map (fun l => cps ++ l)
          | none => none) = some ((c :: cs).map Char.toNat)
        rw [show pyUnquoteStep c (pyQuote cs) = some ([c.toNat], pyQuote cs) from by
          simp [pyUnquoteStep, hcne]]
        show (pyUnquoteAux f (pyQuote cs)).map (fun l => [c.toNat] ++ l)
          = some ((c :: cs).map Char.toNat)
        rw [ih cs (by simp at hs; omega) f (by simp at hf; omega)]
        rfl
      · have hsafe' : isSafeByte c.toNat = false := by
          cases h : isSafeByte c.toNat
          · rfl
          · exact absurd h hsafe
        set p : Char → Bool := fun d => ! isSafeByte d.toNat with hp
        set u := (c :: cs).takeWhile p with hu
        set v := (c :: cs).dropWhile p with hv2
        have huv : u ++ v = c :: cs := List.takeWhile_append_dropWhile p (c :: cs)
        have hpc : p c = true := by simp [hp, hsafe']
        have huc : u = c :: (cs.takeWhile p) := hu.trans (List.takeWhile_cons_of_pos hpc)
        have huNotSafe : ∀ x ∈ u, isSafeByte x.toNat = false := by
          intro x hx
          rw [hu] at hx
          have hpx : p x = true := List.mem_takeWhile_imp hx
          simpa [hp] using hpx
        have hv_safe : ∀ d t', v = d :: t' → isSafeByte d.toNat = true := by
          intro d t' hdt
          have hpd : p d = false := by
            apply dropWhile_head_false p (c :: cs)
            rw [← hv2]
            exact hdt
          simpa [hp] using hpd
        have hchars_lt : ∀ x ∈ u.map Char.toNat, x < 1114112 := by
          intro x hx
          obtain ⟨ch, -, rfl⟩ := List.mem_map.mp hx
          exact char_toNat_lt ch
        set B := utf8EncodeAll (u.map Char.toNat) with hB
        have hall : ∀ b ∈ B, isSafeByte b = false := by
          intro b hb
          rw [hB] at hb
          obtain ⟨x, hxmem, hbx⟩ := utf8EncodeAll_mem _ b hb
          obtain ⟨ch, hch, rfl⟩ := List.mem_map.mp hxmem
          exact utf8Encode_bytes_unsafe _ (huNotSafe ch hch) b hbx
        have hquote_u : pyQuote u = escapeList B := by
          show percentEncode (utf8EncodeAll (u.map Char.toNat)) = escapeList B
          rw [← hB]
          exact percentEncode_allUnsafe B hall
        have hBlt : ∀ b ∈ B, b < 256 := by
          intro b hb
          rw [hB] at hb
          obtain ⟨x, hxmem, hbx⟩ := utf8EncodeAll_mem _ b hb
          exact utf8Encode_bytes_lt256 x (hchars_lt x hxmem) b hbx
        obtain ⟨b, bs, hBcons⟩ : ∃ b bs, B = b :: bs := by
          cases hBeq : B with
          | nil =>
            exfalso
            have h2 := utf8EncodeAll_length_ge (u.map Char.toNat)
            rw [← hB, hBeq] at h2
            simp [huc] at h2
          | cons b bs => exact ⟨b, bs, rfl⟩
        have hdecB : utf8DecodeList (b :: bs) = some (u.map Char.toNat) := by
          rw [← hBcons, hB]
          exact utf8DecodeList_encodeAll _ hchars_lt
        have hq : pyQuote (c :: cs) = escapeList (b :: bs) ++ pyQuote v := by
          rw [← huv, pyQuote_append, hquote_u, hBcons]
        rw [hq]
        have hcoll : collectEscapes (escapeList (b :: bs) ++ pyQuote v)
            = (b :: bs, pyQuote v) :=
          collectEscapes_escapeList (b :: bs) (hBcons ▸ hBlt) (pyQuote v)
            (collectEscapes_pyQuote v hv_safe)
        have hstep : pyUnquoteStep '%'
            (hexDigitChar (b / 16) :: hexDigitChar (b % 16) :: (escapeList bs ++ pyQuote v))
            = some (u.map Char.toNat, pyQuote v) := by
          unfold pyUnquoteStep
          rw [if_pos rfl]
          have hc2 : collectEscapes ('%' :: hexDigitChar (b / 16) :: hexDigitChar (b % 16)
              :: (escapeList bs ++ pyQuote v)) = (b :: bs, pyQuote v) := hcoll
          simp only [hc2, hdecB]
        show (match pyUnquoteStep '%'
            (hexDigitChar (b / 16) :: hexDigitChar (b % 16) :: (escapeList bs ++ pyQuote v)) with
          | some (cps, rem) => (pyUnquoteAux f rem).map (fun l => cps ++ l)
          | none => none) = some ((c :: cs).map Char.toNat)
        rw [hstep]
        show (pyUnquoteAux f (pyQuote v)).map (fun l => u.map Char.toNat ++ l)
          = some ((c :: cs).map Char.toNat)
        have hlen : u.length + v.length = cs.length + 1 := by
          have := congrArg List.length huv
          simpa using this
        have hul : 1 ≤ u.length := by rw [huc]; simp
        rw [ih v (by simp at hs; omega) f (by simp at hf; omega)]
        show some (u.map Char.toNat ++ v.map Char.toNat) = some ((c :: cs).map Char.toNat)
        rw [← List.map_append, huv]

theorem percentEncodeByte_length_pos (b : Nat) : 0 < (percentEncodeByte b).length := by
  unfold percentEncodeByte
  split <;> simp

theorem percentEncode_length_ge (B : List Nat) :
    B.length ≤ (percentEncode B).length := by
  induction B with
  | nil => simp [percentEncode]
  | cons b bs ih =>
    have := percentEncodeByte_length_pos b
    simp only [percentEncode, List.length_append, List.length_cons]
    omega

theorem pyQuote_length_ge (s : List Char) : s.length ≤ (pyQuote s).length := by
  have h1 : (s.map Char.toNat).length ≤ (utf8EncodeAll (s.map Char.toNat)).length :=
    utf8EncodeAll_length_ge _
  have h2 := percentEncode_length_ge (utf8EncodeAll (s.map Char.toNat))
  simp only [pyQuote]
  simp only [List.length_map] at h1
  omega

/-- The percent-encoding round trip: decoding `quote`'s output recovers
exactly the original string's code points. -/
theorem pyUnquote_pyQuote (s : List Char) :
    pyUnquote (pyQuote s) = some (s.map Char.toNat) := by
  unfold pyUnquote
  exact pyUnquoteAux_pyQuote s.length s le_rfl _ (pyQuote_length_ge s)

/-! ## The claims -/

theorem dictGet_if_update (custom base : List (String × String)) (k : String) :
    dictGet (if custom ≠ [] then dictUpdate base custom else base) k
      = optOr (lastVal custom k) (dictGet base k) := by
  by_cases hc : custom = []
  · subst hc
    simp [lastVal]
  · rw [if_pos hc, dictGet_dictUpdate]

theorem assembleHeaders_get_none (tok : String) (custom : List (String × String))
    (k : String) :
    dictGet (assembleHeaders tok none custom) k
      = optOr (lastVal custom k) (dictGet [("X-Vault-Token", tok)] k) :=
  dictGet_if_update custom _ k

theorem assembleHeaders_get_empty (tok : String) (custom : List (String × String))
    (k : String) :
    dictGet (assembleHeaders tok (some "") custom) k
      = optOr (lastVal custom k) (dictGet [("X-Vault-Token", tok)] k) :=
  dictGet_if_update custom _ k

theorem assembleHeaders_get_ns (tok ns : String) (custom : List (String × String))
    (k : String) (hns : ns ≠ "") :
    dictGet (assembleHeaders tok (some ns) custom) k
      = optOr (lastVal custom k)
          (dictGet [("X-Vault-Token", tok), ("X-Vault-Namespace", ns)] k) := by
  have h1 : assembleHeaders tok (some ns) custom
      = if custom ≠ [] then
          dictUpdate [("X-Vault-Token", tok), ("X-Vault-Namespace", ns)] custom
        else [("X-Vault-Token", tok), ("X-Vault-Namespace", ns)] := by
    show (if custom ≠ [] then
        dictUpdate (if ns ≠ "" then
          dictSet (dictSet [] "X-Vault-Token" tok) "X-Vault-Namespace" ns
        else dictSet [] "X-Vault-Token" tok) custom
      else (if ns ≠ "" then
          dictSet (dictSet [] "X-Vault-Token" tok) "X-Vault-Namespace" ns
        else dictSet [] "X-Vault-Token" tok)) = _
    rw [if_pos hns]
    rfl
  rw [h1]
  exact dictGet_if_update custom _ k

/-- C1 (amended): in `main`'s header assembly the `X-Vault-Token` key is
always present; `X-Vault-Namespace` is added exactly when a non-empty
namespace is configured (absent otherwise unless the caller supplies it);
caller-supplied extra headers are merged last with last-write-wins on key
collision — and this applies to the mandatory token header too: a
caller-supplied `X-Vault-Token` entry overrides the configured token
(`headers.update(custom_headers)` has no carve-out). -/
theorem c1_header_assembly (vault_token : String) (vaultNamespace : Option String)
    (custom : List (String × String)) :
    (dictGet (assembleHeaders vault_token vaultNamespace custom) "X-Vault-Token").isSome
      = true
  ∧ dictGet (assembleHeaders vault_token vaultNamespace custom) "X-Vault-Token"
      = optOr (lastVal custom "X-Vault-Token") (some vault_token)
  ∧ ((vaultNamespace = none ∨ vaultNamespace = some "") →
      dictGet (assembleHeaders vault_token vaultNamespace custom) "X-Vault-Namespace"
        = optOr (lastVal custom "X-Vault-Namespace") none)
  ∧ (∀ ns, vaultNamespace = some ns → ns ≠ "" →
      dictGet (assembleHeaders vault_token vaultNamespace custom) "X-Vault-Namespace"
        = optOr (lastVal custom "X-Vault-Namespace") (some ns))
  ∧ (∀ k v, lastVal custom k = some v →
      dictGet (assembleHeaders vault_token vaultNamespace custom) k = some v) := by
  refine ⟨?_, ?_, ?_, ?_, ?_⟩
  · rcases vaultNamespace with _ | ns
    · rw [assembleHeaders_get_none]
      cases lastVal custom "X-Vault-Token" <;> rfl
    · by_cases hns : ns = ""
      · subst hns
        rw [assembleHeaders_get_empty]
        cases lastVal custom "X-Vault-Token" <;> rfl
      · rw [assembleHeaders_get_ns _ _ _ _ hns]
        cases lastVal custom "X-Vault-Token" <;> rfl
  · rcases vaultNamespace with _ | ns
    · rw [assembleHeaders_get_none]
      rfl
    · by_cases hns : ns = ""
      · subst hns
        rw [assembleHeaders_get_empty]
        rfl
      · rw [assembleHeaders_get_ns _ _ _ _ hns]
        rfl
  · rintro (h | h) <;> subst h
    · rw [assembleHeaders_get_none]
      rfl
    · rw [assembleHeaders_get_empty]
      rfl
  · intro ns h hne
    subst h
    rw [assembleHeaders_get_ns _ _ _ _ hne]
    rfl
  · intro k v hkv
    rcases vaultNamespace with _ | ns
    · rw [assembleHeaders_get_none, hkv]
      rfl
    · by_cases hns : ns = ""
      · subst hns
        rw [assembleHeaders_get_empty, hkv]
        rfl
      · rw [assembleHeaders_get_ns _ _ _ _ hns, hkv]
        rfl

/-- C1 counterexample: the claim's carve-out — that the authentication
token header cannot be overridden by a caller-supplied key — is false: with
token `"t"` and caller headers `{"X-Vault-Token": "evil"}`, the assembled
mapping carries `"evil"`, not `"t"`. -/
theorem c1_counterexample :
    dictGet (assembleHeaders "t" none [("X-Vault-Token", "evil")]) "X-Vault-Token"
      = some "evil"
  ∧ dictGet (assembleHeaders "t" none [("X-Vault-Token", "evil")]) "X-Vault-Token"
      ≠ some "t" := by
  constructor
  · rfl
  · decide

/-- C1 witness: the amended claim instantiated at token `"t"`, namespace
`"ns1"` and caller headers `{"X-Extra": "v"}`. -/
theorem c1_witness :
    dictGet (assembleHeaders "t" (some "ns1") [("X-Extra", "v")]) "X-Extra" = some "v"
  ∧ dictGet (assembleHeaders "t" (some "ns1") [("X-Extra", "v")]) "X-Vault-Namespace"
      = optOr (lastVal [("X-Extra", "v")] "X-Vault-Namespace") (some "ns1") := by
  constructor
  · exact (c1_header_assembly "t" (some "ns1") [("X-Extra", "v")]).2.2.2.2
      "X-Extra" "v" (by decide)
  · exact (c1_header_assembly "t" (some "ns1") [("X-Extra", "v")]).2.2.2.1
      "ns1" rfl (by decide)

/-- C2 counterexample: the claim says the substitution replaces only the
first occurrence and alters no other occurrence of the scheme string, but
Python `str.replace` replaces every occurrence: on the base address
`https://a/https://b` the second `https://` is rewritten to `wss://` as
well. -/
theorem c2_counterexample :
    build_event_url "https://a/https://b" "p" none
      = "wss://a/wss://b/v1/sys/events/subscribe/p?json=true"
  ∧ build_event_url "https://a/https://b" "p" none
      ≠ "wss://a/https://b/v1/sys/events/subscribe/p?json=true" := by
  constructor <;> decide

/-- C2 (amended): `_build_event_url` performs the scheme translation
`https://` → `wss://` and `http://` → `ws://` as an exact, case-sensitive
substitution of every occurrence of the scheme substring (Python
`str.replace`); in particular, if the base address starts with `https://`
the built URL starts with `wss://`, and if it starts with `http://` the
built URL starts with `ws://`. -/
theorem c2_scheme_swap (vault_addr event_pattern : String)
    (filter_expression : Option String) :
    (startsWithL httpsScheme vault_addr.data = true →
      startsWithL wssScheme
        (build_event_url vault_addr event_pattern filter_expression).data = true)
  ∧ (startsWithL httpScheme vault_addr.data = true →
      startsWithL wsScheme
        (build_event_url vault_addr event_pattern filter_expression).data = true) := by
  obtain ⟨t, ht⟩ := build_event_url_data vault_addr event_pattern filter_expression
  constructor
  · intro h
    rw [ht]
    show startsWithL wssScheme (wsTransform vault_addr.data ++ t) = true
    unfold wsTransform
    rw [if_pos h]
    obtain ⟨t2, h2⟩ := replaceAll_head httpsScheme wssScheme vault_addr.data
      (by decide) h
    rw [h2, List.append_assoc]
    exact startsWithL_append wssScheme _
  · intro h
    rw [ht]
    show startsWithL wsScheme (wsTransform vault_addr.data ++ t) = true
    unfold wsTransform
    have hf := http_not_https vault_addr.data h
    rw [if_neg (by simp [hf])]
    obtain ⟨t2, h2⟩ := replaceAll_head httpScheme wsScheme vault_addr.data
      (by decide) h
    rw [h2, List.append_assoc]
    exact startsWithL_append wsScheme _

/-- C2 witness: the amended claim instantiated at `https://h` and
`http://h`. -/
theorem c2_witness :
    startsWithL wssScheme (build_event_url "https://h" "p" none).data = true
  ∧ startsWithL wsScheme (build_event_url "http://h" "p" none).data = true := by
  constructor
  · exact (c2_scheme_swap "https://h" "p" none).1 (by decide)
  · exact (c2_scheme_swap "http://h" "p" none).2 (by decide)

/-- C3: for backoff bounds `initial > 0` and `max ≥ initial`, the delays
slept over `K` consecutive connection failures are
`initial, min(initial*2, max), min(initial*4, max), …` — the `k`-th delay
is `min(initial * 2^k, max)` — so no delay exceeds `max`; and after a
successful connection the next delay used on a subsequent failure is reset
to `initial`. -/
theorem c3_backoff (backoff_initial backoff_max : ℚ)
    (h0 : 0 < backoff_initial) (h1 : backoff_initial ≤ backoff_max) :
    (∀ K : ℕ, supervisorDelays backoff_initial backoff_max backoff_initial
        (List.replicate K .failure)
      = (List.range K).map (fun k => min (backoff_initial * 2 ^ k) backoff_max))
  ∧ (∀ K : ℕ, ∀ d ∈ supervisorDelays backoff_initial backoff_max backoff_initial
        (List.replicate K .failure), d ≤ backoff_max)
  ∧ (∀ b : ℚ, ∀ post : List ConnAttempt,
      supervisorDelays backoff_initial backoff_max b
        (ConnAttempt.success :: ConnAttempt.failure :: post)
      = backoff_initial :: supervisorDelays backoff_initial backoff_max
          (min (backoff_initial * 2) backoff_max) post) := by
  have hone : ∀ K : ℕ, supervisorDelays backoff_initial backoff_max backoff_initial
      (List.replicate K .failure)
      = (List.range K).map (fun k => min (backoff_initial * 2 ^ k) backoff_max) := by
    intro K
    have h := supervisorDelays_replicate backoff_initial backoff_max h0 h1 K 0
    simp only [pow_zero, mul_one, min_eq_left h1, zero_add] at h
    exact h
  refine ⟨hone, ?_, ?_⟩
  · intro K d hd
    rw [hone K] at hd
    obtain ⟨k, -, rfl⟩ := List.mem_map.mp hd
    exact min_le_right _ _
  · intro b post
    rfl

/-- C3 witness: the closed form instantiated at `initial = 1`, `max = 30`
and `K = 6`, evaluated: the slept delays are `1, 2, 4, 8, 16, 30`. -/
theorem c3_witness :
    supervisorDelays 1 30 1 (List.replicate 6 .failure) = [1, 2, 4, 8, 16, 30] := by
  have h := (c3_backoff 1 30 (by norm_num) (by norm_num)).1 6
  rw [h]
  simp [List.range_succ]
  norm_num [min_def]

/-- C4: an inbound text frame whose `json.loads` fails with
`JSONDecodeError` produces exactly one Decode-Failure Event Record —
carrying the raw payload, the `json_decode_failed` error marker and the
originating topic pattern — which is enqueued; the handler returns normally
(never raises past this point, so the Supervisor keeps running), and the
stream goes on to process the remaining frames. -/
theorem c4_decode_failure (pattern msg m msg2 : String)
    (fields : List (String × Json)) (rest : List (String × Except PyExc Json))
    (queue : List Json) :
    handleFrame pattern msg (.error (.jsonDecodeError m))
      = .ok (decodeFailureRecord msg "json_decode_failed" pattern)
  ∧ streamFrames pattern ((msg, .error (.jsonDecodeError m)) :: rest) queue
      = streamFrames pattern rest
          (queue ++ [decodeFailureRecord msg "json_decode_failed" pattern])
  ∧ decodeFailureRecord msg "json_decode_failed" pattern
      = .obj [("raw", .str msg), ("error", .str "json_decode_failed"),
              ("pattern", .str pattern)]
  ∧ streamFrames pattern
        [(msg, .error (.jsonDecodeError m)), (msg2, .ok (.obj fields))] queue
      = .ok (queue ++ [decodeFailureRecord msg "json_decode_failed" pattern,
          .obj fields]) := by
  refine ⟨rfl, rfl, rfl, ?_⟩
  show Except.ok ((queue ++ [decodeFailureRecord msg "json_decode_failed" pattern])
      ++ [Json.obj fields]) = _
  rw [List.append_assoc]
  rfl

/-- C5: the Coordinator's cancellation handler cancels every still-running
Supervisor task and awaits them all (`gather(*tasks,
return_exceptions=True)`) before re-raising: the cohort it leaves behind
has the same size `N` and every task in it is finished — no task is left
running. -/
theorem c5_cancellation_total (tasks : List SupTask) :
    (coordinatorOnCancel tasks).length = tasks.length
  ∧ (coordinatorOnCancel tasks).all (fun t => t.done) = true := by
  constructor
  · simp [coordinatorOnCancel]
  · rw [List.all_eq_true]
    intro t ht
    simp only [coordinatorOnCancel, List.mem_map] at ht
    obtain ⟨t0, -, rfl⟩ := ht
    exact deliverCancel_done t0

/-- C6 counterexample: the claim says `main` proceeds to delegate whenever
both `vault_addr` and `vault_token` are present, but with `vault_addr`
present as the empty string (and a valid token) the truthiness test
`if not vault_addr` still raises the configuration error. -/
theorem c6_counterexample :
    mainSetup { vault_addr := some "", vault_token := some "t" }
      = .error "vault_addr parameter is required" := rfl

/-- C6 (amended): `main` fails fast with `ValueError("vault_addr parameter
is required")` when `vault_addr` is missing or empty, with
`ValueError("vault_token parameter is required")` when `vault_addr` is
acceptable but `vault_token` is missing or empty — in both cases before any
connection attempt — and delegates to the Fan-out Coordinator when both are
present and non-empty. -/
theorem c6_validation (args : Args) :
    ((args.vault_addr = none ∨ args.vault_addr = some "") →
      mainSetup args = .error "vault_addr parameter is required")
  ∧ (∀ a, args.vault_addr = some a → a ≠ "" →
      (args.vault_token = none ∨ args.vault_token = some "") →
      mainSetup args = .error "vault_token parameter is required")
  ∧ (∀ a tok, args.vault_addr = some a → a ≠ "" → args.vault_token = some tok →
      tok ≠ "" → ∃ cfg, mainSetup args = .ok cfg ∧ cfg.vault_addr = a) := by
  refine ⟨?_, ?_, ?_⟩
  · rintro (h | h) <;> simp [mainSetup, h]
  · intro a ha hne hv
    rcases hv with h | h <;> simp [mainSetup, ha, hne, h]
  · intro a tok ha hane htok htokne
    have hok : mainSetup args = .ok {
        vault_addr := a,
        event_paths := (match args.event_paths with
          | none => ["kv-v2/data-*"]
          | some (.inl s) => [s]
          | some (.inr l) => l),
        headers := assembleHeaders tok args.vaultNamespace (args.headers.getD []),
        ping_interval := args.ping_interval.getD 20,
        verify_ssl := args.verify_ssl.getD true,
        backoff_initial := args.backoff_initial.getD 1,
        backoff_max := args.backoff_max.getD 30,
        filter_expression := args.filter_expression } := by
      simp [mainSetup, ha, hane, htok, htokne]
      try rfl
    exact ⟨_, hok, rfl⟩

/-- C6 witness: the amended claim instantiated at a missing address, an
empty token, and a fully valid configuration. -/
theorem c6_witness :
    mainSetup { vault_token := some "t" } = .error "vault_addr parameter is required"
  ∧ mainSetup { vault_addr := some "http://127.0.0.1:8200", vault_token := some "" }
      = .error "vault_token parameter is required"
  ∧ ∃ cfg,
      mainSetup { vault_addr := some "http://127.0.0.1:8200", vault_token := some "t" }
        = .ok cfg
      ∧ cfg.vault_addr = "http://127.0.0.1:8200" := by
  refine ⟨?_, ?_, ?_⟩
  · exact (c6_validation _).1 (Or.inl rfl)
  · exact (c6_validation _).2.1 "http://127.0.0.1:8200" rfl (by decide) (Or.inr rfl)
  · exact (c6_validation _).2.2 "http://127.0.0.1:8200" "t" rfl (by decide) rfl
      (by decide)

/-- C7: with an absent (or empty) filter expression the built URL is
exactly `<transformed-base>/v1/sys/events/subscribe/<pattern>?json=true` —
the query string is `json=true` alone, with no `&filter=` segment appended;
in particular base `http://127.0.0.1:8200` with pattern `kv-v2/*` yields
`ws://127.0.0.1:8200/v1/sys/events/subscribe/kv-v2/*?json=true`. -/
theorem c7_query_string :
    (∀ vault_addr event_pattern : String,
      (build_event_url vault_addr event_pattern none).data
        = wsTransform vault_addr.data ++ "/v1/sys/events/subscribe/".data
          ++ event_pattern.data ++ "?json=true".data)
  ∧ (∀ vault_addr event_pattern : String,
      build_event_url vault_addr event_pattern (some "")
        = build_event_url vault_addr event_pattern none)
  ∧ build_event_url "http://127.0.0.1:8200" "kv-v2/*" none
      = "ws://127.0.0.1:8200/v1/sys/events/subscribe/kv-v2/*?json=true" := by
  refine ⟨fun a p => rfl, fun a p => rfl, by decide⟩

/-- C8: for every non-empty filter expression `_build_event_url` appends
`&filter=<encoded>` where `<encoded>` is `urllib.parse.quote` of the
expression, and percent-decoding the encoded filter recovers exactly the
original expression's code points (round-trip law
`unquote(quote(s)) = s`), reserved URL characters such as spaces and
quotes included. -/
theorem c8_filter_roundtrip (f : String) (hf : f ≠ "")
    (vault_addr event_pattern : String) :
    (build_event_url vault_addr event_pattern (some f)).data
      = (build_event_url vault_addr event_pattern none).data
        ++ "&filter=".data ++ pyQuote f.data
  ∧ pyUnquote (pyQuote f.data) = some (f.data.map Char.toNat) := by
  constructor
  · show (if f ≠ "" then
        String.mk (build_event_base vault_addr event_pattern
          ++ "&filter=".data ++ pyQuote f.data)
      else String.mk (build_event_base vault_addr event_pattern)).data = _
    rw [if_pos hf]
    rfl
  · exact pyUnquote_pyQuote f.data

/-- C8 witness: the round trip instantiated at the filter expression
`a b"c` (space and double quote), evaluated to its code points. -/
theorem c8_witness :
    pyUnquote (pyQuote ("a b\"c" : String).data) = some [97, 32, 98, 34, 99] :=
  ((c8_filter_roundtrip "a b\"c" (by decide) "http://h" "p").2).trans (by decide)

/-- C9: for every configured list of topic patterns — duplicates included —
the Fan-out Coordinator spawns exactly one Supervisor task per list
element, in order, with no merging and no deduplication, and every task is
handed the same output queue. -/
theorem c9_one_supervisor_per_pattern (queueId : Nat) (vault_addr : String)
    (event_paths : List String) (headers : List (String × String))
    (ping_interval : Int) (verify_ssl : Bool) (backoff_initial backoff_max : ℚ)
    (filter_expression : Option String) :
    (spawnSupervisors queueId vault_addr event_paths headers ping_interval
        verify_ssl backoff_initial backoff_max filter_expression).length
      = event_paths.length
  ∧ (spawnSupervisors queueId vault_addr event_paths headers ping_interval
        verify_ssl backoff_initial backoff_max filter_expression).map
        (fun t => t.pattern) = event_paths
  ∧ (spawnSupervisors queueId vault_addr event_paths headers ping_interval
        verify_ssl backoff_initial backoff_max filter_expression).all
        (fun t => t.queueId == queueId) = true := by
  refine ⟨by simp [spawnSupervisors], ?_, ?_⟩
  · induction event_paths with
    | nil => rfl
    | cons x xs ih =>
      simp only [spawnSupervisors, List.map_cons] at ih ⊢
      rw [ih]
  · simp [spawnSupervisors, List.all_eq_true]

/-- C10: an inbound text frame that is well-formed JSON but not a JSON
object (a list, number, string, boolean or null) makes the Supervisor's
message handling raise `AttributeError` from `event.get(...)`; the error is
matched by neither inner except clause nor either outer clause, so no Event
Record is enqueued, the stream stops, and the Supervisor task terminates
without reconnecting. -/
theorem c10_nonmapping_frame_crash (pattern msg : String) (j : Json)
    (hj : j.isObj = false) (rest : List (String × Except PyExc Json))
    (queue : List Json) :
    handleFrame pattern msg (.ok j) = .error .attributeError
  ∧ streamFrames pattern ((msg, .ok j) :: rest) queue = .error .attributeError
  ∧ superviseExc .attributeError = .crash .attributeError := by
  have hb : tryBody (.ok j) = .error .attributeError := by
    cases j with
    | obj fields => simp [Json.isObj] at hj
    | arr l => rfl
    | str s => rfl
    | num n => rfl
    | bool b => rfl
    | null => rfl
  have h1 : handleFrame pattern msg (.ok j) = .error .attributeError := by
    unfold handleFrame
    rw [hb]
    rfl
  have h2 : streamFrames pattern ((msg, .ok j) :: rest) queue
      = .error .attributeError := by
    show (match handleFrame pattern msg (.ok j) with
      | .ok event => streamFrames pattern rest (queue ++ [event])
      | .error e => (.error e : Except PyExc (List Json))) = .error .attributeError
    rw [h1]
  exact ⟨h1, h2, rfl⟩

/-- C10 witness: the claim instantiated at the frame `[1]`, whose decode
result is the JSON array `[1]`. -/
theorem c10_witness :
    handleFrame "kv-v2/*" "[1]" (.ok (Json.arr [Json.num 1])) = .error .attributeError
  ∧ streamFrames "kv-v2/*" [("[1]", .ok (Json.arr [Json.num 1]))] []
      = .error .attributeError
  ∧ superviseExc .attributeError = .crash .attributeError :=
  c10_nonmapping_frame_crash "kv-v2/*" "[1]" (Json.arr [Json.num 1]) rfl [] []

end VaultEvents
